import Mathlib

/-!
Verification development for the news_sentiment repository.

The Python sources (src/datastorage.py, src/fmp.py) are shallowly embedded
below: pandas dataframes become either row lists (for the predicate
query/update/delete operations of DataStorage and for the intersection
utility) or an indexed Table structure (for the upsert merge of
FMP._add_entries_to_ds and for DataStorage.sort_ds_dates); the paginated
fetch loop of FMP._read_entries becomes a fuel-indexed recursion returning
an explicit stop state, and its rate limiter becomes an explicit
start-time recurrence.
-/

namespace NewsSentiment

/-! ### DataStorage predicate operations (src/datastorage.py, lines 162-250)

A cell is an optional integer: none models a pandas null (NaN or None), and
a row is an association list from column name to cell. -/

abbrev Cell := Option Int

abbrev DRow := List (String × Cell)

/-- Read a column's cell from a row; a missing column reads as null. -/
def getCell (r : DRow) (c : String) : Cell :=
  match r.find? (fun p => p.1 == c) with
  | some p => p.2
  | none => none

/-- Pandas series comparison df[col] > value: null on either side compares false. -/
def cellGt (cell v : Cell) : Bool :=
  match cell, v with
  | some a, some b => decide (b < a)
  | _, _ => false

/-- Pandas series comparison df[col] < value: null on either side compares false. -/
def cellLt (cell v : Cell) : Bool :=
  match cell, v with
  | some a, some b => decide (a < b)
  | _, _ => false

/-- Pandas series comparison df[col] == v for a non-null v: a null cell compares false. -/
def cellEqVal (cell : Cell) (b : Int) : Bool :=
  match cell with
  | some a => a == b
  | none => false

/-- Pandas series comparison df[col] != v for a non-null v: a null cell compares TRUE
(NaN != v holds in pandas). -/
def cellNeqVal (cell : Cell) (b : Int) : Bool :=
  match cell with
  | some a => a != b
  | none => true

/-- DataStorage.get_rows_by_condition (lines 192-221): filters rows by the
comparison operator; the eq/neq branches test nullness when the value is
null. On an unrecognized operator the source executes a bare return,
yielding Python None, modelled as Option.none. -/
def get_rows_by_condition (df : List DRow) (column condition : String) (value : Cell) :
    Option (List DRow) :=
  if condition = "gt" then
    some (df.filter (fun r => cellGt (getCell r column) value))
  else if condition = "lt" then
    some (df.filter (fun r => cellLt (getCell r column) value))
  else if condition = "eq" then
    match value with
    | some v => some (df.filter (fun r => cellEqVal (getCell r column) v))
    | none => some (df.filter (fun r => (getCell r column).isNone))
  else if condition = "neq" then
    match value with
    | some v => some (df.filter (fun r => cellNeqVal (getCell r column) v))
    | none => some (df.filter (fun r => (getCell r column).isSome))
  else
    none

/-- Write a value into one column of a row (df.loc assignment on an existing column). -/
def setCell (r : DRow) (c : String) (v : Cell) : DRow :=
  r.map (fun p => if p.1 = c then (p.1, v) else p)

/-- Rows matching the filter get update_value written into every column of
columns_to_update (the df.loc[bool_filter, columns_to_update] assignment). -/
def applyUpdate (df : List DRow) (p : DRow → Bool) (columns_to_update : List String)
    (update_value : Cell) : List DRow :=
  df.map (fun r =>
    if p r then columns_to_update.foldl (fun acc c => setCell acc c update_value) r else r)

/-- DataStorage.update_rows (lines 162-189): same four-operator chain, but the
source has NO final else branch; on an unrecognized operator bool_filter is
never assigned and the closing df.loc line raises UnboundLocalError,
modelled as the error result. -/
def update_rows (df : List DRow) (condition_column condition : String)
    (condition_value : Cell) (columns_to_update : List String) (update_value : Cell) :
    Except Unit (List DRow) :=
  if condition = "gt" then
    .ok (applyUpdate df (fun r => cellGt (getCell r condition_column) condition_value)
      columns_to_update update_value)
  else if condition = "lt" then
    .ok (applyUpdate df (fun r => cellLt (getCell r condition_column) condition_value)
      columns_to_update update_value)
  else if condition = "eq" then
    match condition_value with
    | some v => .ok (applyUpdate df (fun r => cellEqVal (getCell r condition_column) v)
        columns_to_update update_value)
    | none => .ok (applyUpdate df (fun r => (getCell r condition_column).isNone)
        columns_to_update update_value)
  else if condition = "neq" then
    match condition_value with
    | some v => .ok (applyUpdate df (fun r => cellNeqVal (getCell r condition_column) v)
        columns_to_update update_value)
    | none => .ok (applyUpdate df (fun r => (getCell r condition_column).isSome)
        columns_to_update update_value)
  else
    .error ()

/-- DataStorage.remove_rows_by_condition (lines 223-250): drops the matching
rows. On an unrecognized operator the source executes a bare return before
the drop, leaving self.df unchanged - the dataframe is returned as it was. -/
def remove_rows_by_condition (df : List DRow) (column condition : String) (value : Cell) :
    List DRow :=
  if condition = "gt" then
    df.filter (fun r => !cellGt (getCell r column) value)
  else if condition = "lt" then
    df.filter (fun r => !cellLt (getCell r column) value)
  else if condition = "eq" then
    match value with
    | some v => df.filter (fun r => !cellEqVal (getCell r column) v)
    | none => df.filter (fun r => !(getCell r column).isNone)
  else if condition = "neq" then
    match value with
    | some v => df.filter (fun r => !cellNeqVal (getCell r column) v)
    | none => df.filter (fun r => !(getCell r column).isSome)
  else
    df

/-! ### Indexed table and the upsert merge (FMP._add_entries_to_ds, src/fmp.py 307-328)

A table is a row index (date-string keys), a column list, and a cell
assignment. Cells are read through the (index, cols) frame by Table.cell;
none models a pandas NaN cell. -/

structure Table where
  index : List String
  cols : List String
  data : String → String → Option String

attribute [ext] Table

/-- The cell of a table at a key and column; positions outside the frame read as null. -/
def Table.cell (t : Table) (k c : String) : Option String :=
  if k ∈ t.index ∧ c ∈ t.cols then t.data k c else none

/-- FMP._add_entries_to_ds: keys of entries missing from ds are appended as
all-null rows, columns of entries missing from ds are appended as all-null
columns, then ds.df.update(entries) overwrites exactly the cells where
entries carries a non-null value inside its own frame. -/
def add_entries_to_ds (ds entries : Table) : Table where
  index := ds.index ++ entries.index.filter (fun k => decide (k ∉ ds.index))
  cols := ds.cols ++ entries.cols.filter (fun c => decide (c ∉ ds.cols))
  data := fun k c =>
    match entries.cell k c with
    | some v => some v
    | none => ds.cell k c

/-! ### Date sorter (DataStorage.sort_ds_dates, src/datastorage.py 253-272)

The source takes the date format as a runtime parameter; it is embedded as a
pair of functions: parse (pd.to_datetime with that format, to a datetime
ordinal) and render (DatetimeIndex.strftime with the same format). -/

/-- pd.to_datetime(index, format = ...) over the whole index: every key must
parse, and each key is paired with its parsed ordinal. -/
def parseIndex (parse : String → Option Nat) : List String → Option (List (String × Nat))
  | [] => some []
  | k :: ks =>
    match parse k, parseIndex parse ks with
    | some v, some ps => some ((k, v) :: ps)
    | _, _ => none

/-- The row order of sort_index(ascending = False): descending in the parsed
date ordinal, on (original key, parsed ordinal) pairs. -/
def descSnd (a b : String × Nat) : Prop := b.2 ≤ a.2

instance : DecidableRel descSnd := fun a b => inferInstanceAs (Decidable (b.2 ≤ a.2))

instance : IsTotal (String × Nat) descSnd := ⟨fun a b => Nat.le_total b.2 a.2⟩

instance : IsTrans (String × Nat) descSnd := ⟨fun _ _ _ h1 h2 => Nat.le_trans h2 h1⟩

/-- DataStorage.sort_ds_dates: parse the index into datetimes (failing when a
key does not follow the format), sort rows by parsed value descending,
re-render the keys with the same format, and reorder columns alphabetically. -/
def sort_ds_dates (parse : String → Option Nat) (render : Nat → String) (t : Table) :
    Option Table :=
  match parseIndex parse t.index with
  | none => none
  | some pairs =>
    let sortedPairs := List.insertionSort descSnd pairs
    some { index := sortedPairs.map (fun p => render p.2),
           cols := List.insertionSort (fun a b : String => a ≤ b) t.cols,
           data := fun k c =>
             match sortedPairs.find? (fun p => render p.2 == k) with
             | some p => t.cell p.1 c
             | none => none }

/-! ### Multi-table intersection (DataStorage.intersect_on_column, src/datastorage.py 274-303)

A dataframe is a row list; a row is its join-column value paired with an
opaque payload identifying the rest of the row. -/

abbrev JRow := String × Nat

/-- The join-column values of pd.merge_ordered(a, b, how = "inner", on = c),
given the join-column values of a and b. The sole downstream use of the
accumulator is the membership test isin, so multiplicity and the key-sorted
row order of merge_ordered are irrelevant and dropped here. -/
def mergeKeys (xs ys : List String) : List String :=
  xs.filter (fun v => ys.contains v)

/-- DataStorage.intersect_on_column: fold the ordered inner join over the
third and later dataframes (dropping every accumulator column except the
join column), then filter each input dataframe by membership of its
join-column value in the accumulated key set. Fewer than two dataframes
raise IndexError in the source (dataframes[1]), modelled as none. -/
def intersect_on_column (dataframes : List (List JRow)) : Option (List (List JRow)) :=
  match dataframes with
  | d0 :: d1 :: rest =>
    let keys0 := mergeKeys (d0.map Prod.fst) (d1.map Prod.fst)
    let keys := rest.foldl (fun acc d => mergeKeys acc (d.map Prod.fst)) keys0
    some ((d0 :: d1 :: rest).map (fun d => d.filter (fun r => keys.contains r.1)))
  | _ => none

/-! ### Rate-limited paginated fetch (FMP._read_entries, src/fmp.py 224-305) -/

/-- A raw record of one remote JSON object: field name to value. -/
abbrev FRec := List (String × String)

/-- record[key]: Python dict lookup, none when the key is absent (KeyError). -/
def lookupField (r : FRec) (k : String) : Option String :=
  match r.find? (fun p => p.1 == k) with
  | some p => some p.2
  | none => none

/-- The cross_check argument of FMP._read_entries: the already-stored series
values and the response dictionary key to compare against them. -/
structure CrossCheck where
  series : List String
  key : String
  deriving DecidableEq

/-- The stop states of the pagination loop. -/
inductive StopState where
  | EMPTY_PAGE
  | CROSS_CHECK_HIT
  deriving DecidableEq

/-- Outcome of the while-loop of FMP._read_entries: a stop state with the
accumulated batch; lookupError models the Python KeyError raised by
response_list[-1][dict_key]; fuelOut is the artifact of embedding the
unbounded loop with fuel. -/
inductive LoopResult where
  | stopped (state : StopState) (batch : List FRec)
  | lookupError
  | fuelOut
  deriving DecidableEq

/-- The while-loop of FMP._read_entries (lines 254-280): read page p; stop on
an empty page; append the page to the batch; when a cross check is
configured and the LAST accumulated record's designated field value occurs
in the series, stop keeping the whole page; otherwise continue with the
next page. pages gives the parsed JSON list of each page. -/
def readLoop (pages : Nat → List FRec) (cc : Option CrossCheck) :
    Nat → List FRec → Nat → LoopResult
  | _, _, 0 => .fuelOut
  | p, acc, fuel + 1 =>
    if (pages p).isEmpty then .stopped .EMPTY_PAGE acc
    else
      let acc2 := acc ++ pages p
      match cc with
      | none => readLoop pages cc (p + 1) acc2 fuel
      | some c =>
        match acc2.getLast? with
        | none => .lookupError
        | some r =>
          match lookupField r c.key with
          | none => .lookupError
          | some v =>
            if c.series.contains v then .stopped .CROSS_CHECK_HIT acc2
            else readLoop pages cc (p + 1) acc2 fuel

/-- The start time of page p's request in FMP._read_entries: iteration p
measures its own duration reqTime p (lines 255, 275-276) and sleeps
interval minus that duration when the difference is positive (lines
277-280) before starting the next page. -/
def loopStart (reqTime : Nat → ℚ) (interval : ℚ) : Nat → ℚ
  | 0 => 0
  | p + 1 => loopStart reqTime interval p + reqTime p + max 0 (interval - reqTime p)

/-! ### Response normalization and the news run (FMP._read_entries 282-305, FMP.read_news 68-95) -/

/-- The errors a fetch run can surface: noData is the ValueError of line 283,
missingKey the KeyError of line 299 (carrying the first row's values),
lookupKeyError the KeyError of line 271, titleKeyError the KeyError of
line 80, dropKeyError the KeyError of line 88, dateParseError a
to_datetime failure inside sort_ds_dates. -/
inductive RunError where
  | noData
  | missingKey (sample : List (Option String))
  | lookupKeyError
  | titleKeyError
  | dropKeyError
  | dateParseError
  deriving DecidableEq

/-- A dataframe before the date index is designated: column names plus the
raw records backing the rows. -/
structure DFrame where
  cols : List String
  rows : List FRec
  deriving DecidableEq

/-- pd.json_normalize(response_list): the columns are the union of the
records' field names in order of first appearance. -/
def jsonNormalize (batch : List FRec) : DFrame where
  cols := batch.foldl (fun acc r => acc ++ (r.map Prod.fst).filter (fun k => decide (k ∉ acc))) []
  rows := batch

/-- DataFrame.rename with a one-entry column mapping: renames the column and
the corresponding field of every row. -/
def renameCol (oldName newName : String) (d : DFrame) : DFrame where
  cols := d.cols.map (fun c => if c = oldName then newName else c)
  rows := d.rows.map (fun r => r.map (fun p => if p.1 = oldName then (newName, p.2) else p))

/-- One step of the camelCase-to-snake_case conversion of line 302: an
underscore is inserted before every upper-case character after the first,
and every character is lowered. -/
def snakeTail : List Char → List Char
  | [] => []
  | c :: cs => (if c.isUpper then ['_', c.toLower] else [c.toLower]) ++ snakeTail cs

/-- The full conversion of FMP._read_entries line 302: re.sub inserting an
underscore before every inner upper-case character, then lower(). -/
def camelToSnake (s : String) : String :=
  match s.data with
  | [] => ""
  | c :: cs => String.mk (c.toLower :: snakeTail cs)

/-- DataFrame.rename(columns = f) with a function: applied to the column list
and to every row's field names. -/
def renameColsBy (f : String → String) (d : DFrame) : DFrame where
  cols := d.cols.map f
  rows := d.rows.map (fun r => r.map (fun p => (f p.1, p.2)))

/-- response_df.iloc[0, :].values - the first row's values across the columns,
the diagnostic payload of the missing-key error. -/
def firstRowValues (d : DFrame) : List (Option String) :=
  d.cols.map (fun c => lookupField (d.rows.headD []) c)

/-- The date key a record contributes to the index once "date" is designated
as the index column. -/
def dateKeyOf (r : FRec) : String :=
  (lookupField r "date").getD ""

/-- The base url of the news endpoint (FMP._NEWS_BASE_URL). -/
def NEWS_BASE_URL : String := "https://financialmodelingprep.com/api/v3/stock_news"

/-- FMP._NEWS_URL with the ticker substituted (FMP.read_news line 77); the api
key and page placeholders are still in template form. -/
def newsUrlOf (symbol : String) : String :=
  NEWS_BASE_URL ++ "?tickers=" ++ symbol ++ "&apikey=" ++ "@@@" ++ "&page=" ++ "$$$"

/-- url.startswith(base) of FMP._read_entries line 245, modelled over the
character lists. -/
def urlStartsWith (url base : String) : Bool :=
  base.data.isPrefixOf url.data

/-- The source-specific rename of FMP._read_entries lines 289-290: for the
news endpoint, publishedDate becomes date before the index is designated. -/
def normNews (url : String) (batch : List FRec) : DFrame :=
  let d0 := jsonNormalize batch
  if urlStartsWith url NEWS_BASE_URL then renameCol "publishedDate" "date" d0 else d0

/-- Lines 286-305 of FMP._read_entries: json_normalize, the news-specific
rename, set_index("date") - raising the missing-key KeyError, payload the
first row's values, when the column is absent - and the snake_case rename
of the remaining columns. The result is the entries table keyed by date. -/
def normStage (url : String) (batch : List FRec) : Option (Except RunError Table) :=
  if "date" ∈ (normNews url batch).cols then
    let d2 := renameColsBy camelToSnake
      { cols := (normNews url batch).cols.erase "date", rows := (normNews url batch).rows }
    some (.ok { index := d2.rows.map dateKeyOf,
                cols := d2.cols,
                data := fun k c =>
                  match d2.rows.find? (fun r => dateKeyOf r == k) with
                  | some r => lookupField r c
                  | none => none })
  else
    some (.error (.missingKey (firstRowValues (normNews url batch))))

/-- Lines 282-305 of FMP._read_entries, applied to the loop outcome: an empty
batch raises the no-data ValueError, otherwise the response is normalized. -/
def read_entries_after_loop (url : String) : LoopResult → Option (Except RunError Table)
  | .fuelOut => none
  | .lookupError => some (.error .lookupKeyError)
  | .stopped _ batch =>
    if batch.isEmpty then some (.error .noData)
    else normStage url batch

/-- FMP._read_entries: the pagination loop followed by the post-loop stage. -/
def read_entries (url : String) (pages : Nat → List FRec) (cc : Option CrossCheck)
    (fuel : Nat) : Option (Except RunError Table) :=
  read_entries_after_loop url (readLoop pages cc 0 [] fuel)

/-- The state read_news acts on: the symbol, the in-memory news table, and the
persisted file content (none when never saved). -/
structure FmpState where
  symbol : String
  news : Table
  file : Option Table

/-- FMP.read_news lines 79-82: a nonempty store contributes its title series
as the cross check; reading the title column of a nonempty store lacking it
raises KeyError. The pandas series equality test never matches null cells,
so the series is the list of non-null title cells. -/
def ccOf (t : Table) : Except RunError (Option CrossCheck) :=
  if t.index.length > 0 then
    if "title" ∈ t.cols then
      .ok (some { series := t.index.filterMap (fun k => t.cell k "title"), key := "title" })
    else .error .titleKeyError
  else .ok none

/-- entries.drop(columns = cs): removes the named columns. -/
def dropCols (cs : List String) (t : Table) : Table where
  index := t.index
  cols := t.cols.filter (fun c => decide (c ∉ cs))
  data := t.data

/-- FMP.read_news after the fetch returned (lines 87-95): drop the symbol and
image columns (KeyError when either is absent), merge into the store, sort
(a parse failure leaves the store already merged but unsaved), and persist
the sorted table; a fetch error propagates with the state untouched. -/
def read_news_after_fetch (parse : String → Option Nat) (render : Nat → String)
    (s : FmpState) : Option (Except RunError Table) → Option (Except RunError Unit × FmpState)
  | none => none
  | some (.error e) => some (.error e, s)
  | some (.ok entries) =>
    if "symbol" ∈ entries.cols ∧ "image" ∈ entries.cols then
      let s1 : FmpState :=
        { s with news := add_entries_to_ds s.news (dropCols ["symbol", "image"] entries) }
      match sort_ds_dates parse render s1.news with
      | none => some (.error .dateParseError, s1)
      | some sorted => some (.ok (), { s1 with news := sorted, file := some sorted })
    else some (.error .dropKeyError, s)

/-- FMP.read_news (lines 68-95) as an explicit state transformer: build the
cross check from the store, fetch, then the post-fetch stage. Every early
error leaves the state exactly as it was at that point; only the merge and
sort mutate the table and only the final save writes the file. none is the
fuel artifact of a non-terminating fetch. -/
def read_news_run (parse : String → Option Nat) (render : Nat → String)
    (pages : Nat → List FRec) (fuel : Nat) (s : FmpState) :
    Option (Except RunError Unit × FmpState) :=
  match ccOf s.news with
  | .error e => some (.error e, s)
  | .ok cc =>
    read_news_after_fetch parse render s (read_entries (newsUrlOf s.symbol) pages cc fuel)

/-! ### Symbol truncation and file paths (FMP.__init__, src/fmp.py 33-44) -/

/-- Python str.find for a single character: the index of the FIRST
occurrence, none standing for the -1 of a missing character. -/
def strFind (l : List Char) (c0 : Char) : Option Nat :=
  match l with
  | [] => none
  | c :: cs => if c = c0 then some 0 else (strFind cs c0).map (fun i => i + 1)

/-- Lines 34-38: symbol.find(".") locates the first dot and the symbol is
sliced up to it; a symbol without a dot is kept whole. -/
def truncateSymbolExt (symbol : String) : String :=
  match strFind symbol.data '.' with
  | some i => String.mk (symbol.data.take i)
  | none => symbol

/-- What FMP.__init__ stores: the symbol and the two data-storage file paths
(DataStorage.__init__ line 30: os.path.join(base_dir, file_name + ".csv")). -/
structure FMPModel where
  symbol : String
  news_file_path : String
  social_file_path : String

/-- os.path.join of a directory and a file name. -/
def joinPath (dir file : String) : String := dir ++ "/" ++ file

/-- FMP._NEWS_DATA_DIR relative to the module directory. -/
def NEWS_DATA_DIR : String := "fmp/news"

/-- FMP._SOCIAL_SENTIMENT_DATA_DIR relative to the module directory. -/
def SOCIAL_DATA_DIR : String := "fmp/social_sentiment"

/-- FMP.__init__: truncate the symbol extension, store the symbol, and build
both data storages on the truncated symbol. -/
def fmpInit (symbol : String) : FMPModel :=
  let s := truncateSymbolExt symbol
  { symbol := s,
    news_file_path := joinPath NEWS_DATA_DIR (s ++ ".csv"),
    social_file_path := joinPath SOCIAL_DATA_DIR (s ++ ".csv") }

/-! ### Concrete inputs used by the witness theorems -/

/-- A one-row store with title and text columns. -/
def witStoreS : Table where
  index := ["2021-01-01"]
  cols := ["title", "text"]
  data := fun k c => if k = "2021-01-01" ∧ c = "title" then some "old" else none

/-- A one-row batch touching only the title column of a fresh key. -/
def witBatchB : Table where
  index := ["2021-01-02"]
  cols := ["title"]
  data := fun k c => if k = "2021-01-02" ∧ c = "title" then some "fresh" else none

/-- A two-value date vocabulary serving as a concrete date format: a format
is any (parse, render) pair rendering every parsed ordinal back to a
string that re-parses to the same ordinal. -/
def fmtParse (s : String) : Option Nat :=
  if s = "2021-01-02" then some 1 else if s = "2021-01-01" then some 0 else none

/-- The renderer paired with fmtParse. -/
def fmtRender (n : Nat) : String :=
  if n = 1 then "2021-01-02" else "2021-01-01"

/-- An unsorted table whose keys follow the fmtParse format. -/
def sortWitT : Table where
  index := ["2021-01-01", "2021-01-02"]
  cols := ["title", "sentiment"]
  data := fun _ _ => none

/-- A remote source whose every page holds one record already known locally. -/
def pagesWit3 : Nat → List FRec := fun _ => [[("title", "known title")]]

/-- A cross check holding that record's title. -/
def ccWit : CrossCheck where
  series := ["known title"]
  key := "title"

/-- The fresh news table FMP._load_data builds when no file exists. -/
def emptyNewsTable : Table where
  index := []
  cols := ["sentiment", "sentiment_probability"]
  data := fun _ _ => none

/-- A state as produced by a fresh FMP("AAPL"). -/
def stateWit : FmpState where
  symbol := "AAPL"
  news := emptyNewsTable
  file := none

/-- A remote source that never returns a record. -/
def pagesEmpty : Nat → List FRec := fun _ => []

/-- A remote source whose single record lacks any date-like field. -/
def pagesWit9 : Nat → List FRec := fun p => if p = 0 then [[("headline", "x")]] else []

/-! ## Theorems -/

theorem mem_merge_index {S B : Table} {k : String} :
    k ∈ (add_entries_to_ds S B).index ↔ k ∈ S.index ∨ k ∈ B.index := by
  simp only [add_entries_to_ds, List.mem_append, List.mem_filter, decide_eq_true_eq]
  tauto

theorem mem_merge_cols {S B : Table} {c : String} :
    c ∈ (add_entries_to_ds S B).cols ↔ c ∈ S.cols ∨ c ∈ B.cols := by
  simp only [add_entries_to_ds, List.mem_append, List.mem_filter, decide_eq_true_eq]
  tauto

theorem cell_add_entries (S B : Table) (k c : String) :
    (add_entries_to_ds S B).cell k c =
      match B.cell k c with
      | some v => some v
      | none => S.cell k c := by
  by_cases hf : k ∈ (add_entries_to_ds S B).index ∧ c ∈ (add_entries_to_ds S B).cols
  · rw [Table.cell, if_pos hf]
    rfl
  · rw [Table.cell, if_neg hf]
    have hB : B.cell k c = none := by
      have h : ¬(k ∈ B.index ∧ c ∈ B.cols) := fun h =>
        hf ⟨mem_merge_index.mpr (Or.inr h.1), mem_merge_cols.mpr (Or.inr h.2)⟩
      rw [Table.cell, if_neg h]
    have hS : S.cell k c = none := by
      have h : ¬(k ∈ S.index ∧ c ∈ S.cols) := fun h =>
        hf ⟨mem_merge_index.mpr (Or.inl h.1), mem_merge_cols.mpr (Or.inl h.2)⟩
      rw [Table.cell, if_neg h]
    rw [hB, hS]

theorem merge_index_of_subset {S B : Table} (h : ∀ k ∈ B.index, k ∈ S.index) :
    (add_entries_to_ds S B).index = S.index := by
  have hnil : B.index.filter (fun k => decide (k ∉ S.index)) = [] := by
    rw [List.filter_eq_nil_iff]
    intro k hk
    simp [h k hk]
  show S.index ++ B.index.filter (fun k => decide (k ∉ S.index)) = S.index
  rw [hnil, List.append_nil]

theorem merge_cols_of_subset {S B : Table} (h : ∀ c ∈ B.cols, c ∈ S.cols) :
    (add_entries_to_ds S B).cols = S.cols := by
  have hnil : B.cols.filter (fun c => decide (c ∉ S.cols)) = [] := by
    rw [List.filter_eq_nil_iff]
    intro c hc
    simp [h c hc]
  show S.cols ++ B.cols.filter (fun c => decide (c ∉ S.cols)) = S.cols
  rw [hnil, List.append_nil]

/-- C1: merging a normalized batch B into a store table S twice yields exactly
the same table (same keys, same columns, same cell assignment) as merging it
once: FMP._add_entries_to_ds is idempotent. -/
theorem c1_merge_idempotent (S B : Table) :
    add_entries_to_ds (add_entries_to_ds S B) B = add_entries_to_ds S B := by
  refine Table.ext ?_ ?_ ?_
  · exact merge_index_of_subset fun k hk => mem_merge_index.mpr (Or.inr hk)
  · exact merge_cols_of_subset fun c hc => mem_merge_cols.mpr (Or.inr hc)
  · funext k c
    show (match B.cell k c with
          | some v => some v
          | none => (add_entries_to_ds S B).cell k c) =
         (match B.cell k c with
          | some v => some v
          | none => S.cell k c)
    cases hB : B.cell k c with
    | some v => rfl
    | none => rw [cell_add_entries S B k c, hB]

/-- C5: the merge is non-destructive: every cell position carrying no
non-null value inside the batch frame keeps exactly its prior value in the
store; in particular keys the batch does not touch are left unchanged. -/
theorem c5_merge_frame (S B : Table) (k c : String) (h : B.cell k c = none) :
    (add_entries_to_ds S B).cell k c = S.cell k c := by
  rw [cell_add_entries S B k c, h]

theorem c5_witness :
    Table.cell witBatchB "2021-01-01" "text" = none ∧
    (add_entries_to_ds witStoreS witBatchB).cell "2021-01-01" "text" =
      witStoreS.cell "2021-01-01" "text" :=
  ⟨by decide, c5_merge_frame witStoreS witBatchB "2021-01-01" "text" (by decide)⟩

/-- C2: an unrecognized comparison operator is NOT surfaced as an error by the
source: get_rows_by_condition returns Python None, remove_rows_by_condition
leaves the table unchanged, both silently; only update_rows happens to
raise (an accidental UnboundLocalError). The claim's required behavior
(an explicit InvalidPredicate error from all three) contradicts the code. -/
theorem c2_unknown_operator_silent :
    get_rows_by_condition [[("a", some 1)]] "a" "ge" (some 0) = none ∧
    remove_rows_by_condition [[("a", some 1)]] "a" "ge" (some 0) = [[("a", some 1)]] ∧
    update_rows [[("a", some 1)]] "a" "ge" (some 0) ["a"] (some 2) = .error () :=
  ⟨rfl, rfl, rfl⟩

theorem orderedInsert_of_head {α : Type} (r : α → α → Prop) [DecidableRel r] (a : α)
    (l : List α) (h : ∀ b ∈ l, r a b) : List.orderedInsert r a l = a :: l := by
  cases l with
  | nil => rfl
  | cons b l => simp [List.orderedInsert, h b (List.mem_cons_self b l)]

theorem insertionSort_of_sorted {α : Type} (r : α → α → Prop) [DecidableRel r] :
    ∀ {l : List α}, l.Sorted r → List.insertionSort r l = l := by
  intro l h
  induction l with
  | nil => rfl
  | cons a l ih =>
    rw [List.insertionSort, ih (List.sorted_cons.mp h).2,
      orderedInsert_of_head r a l (List.sorted_cons.mp h).1]

theorem parseIndex_mem {parse : String → Option Nat} :
    ∀ {l : List String} {ps : List (String × Nat)},
      parseIndex parse l = some ps → ∀ p ∈ ps, parse p.1 = some p.2 := by
  intro l
  induction l with
  | nil =>
    intro ps h p hp
    simp only [parseIndex, Option.some.injEq] at h
    subst h
    simp at hp
  | cons k ks ih =>
    intro ps h p hp
    unfold parseIndex at h
    cases hk : parse k with
    | none => rw [hk] at h; simp at h
    | some v =>
      cases hrest : parseIndex parse ks with
      | none => rw [hk, hrest] at h; simp at h
      | some qs =>
        rw [hk, hrest] at h
        simp only [Option.some.injEq] at h
        subst h
        rcases List.mem_cons.mp hp with rfl | hp2
        · exact hk
        · exact ih hrest p hp2

theorem parseIndex_render {parse : String → Option Nat} {render : Nat → String}
    (hpr : ∀ s n, parse s = some n → parse (render n) = some n) :
    ∀ (l : List (String × Nat)), (∀ p ∈ l, parse p.1 = some p.2) →
      parseIndex parse (l.map (fun p => render p.2)) =
        some (l.map (fun p => (render p.2, p.2))) := by
  intro l
  induction l with
  | nil => intro _; rfl
  | cons p l ih =>
    intro h
    have h1 : parse (render p.2) = some p.2 :=
      hpr p.1 p.2 (h p (List.mem_cons_self p l))
    have h2 := ih fun q hq => h q (List.mem_cons_of_mem p hq)
    simp only [List.map_cons, parseIndex, h1, h2]

theorem sort_ds_dates_eq (parse : String → Option Nat) (render : Nat → String) (t : Table)
    {ps : List (String × Nat)} (h : parseIndex parse t.index = some ps) :
    sort_ds_dates parse render t = some
      ⟨(List.insertionSort descSnd ps).map (fun p => render p.2),
       List.insertionSort (fun a b : String => a ≤ b) t.cols,
       fun k c =>
         match (List.insertionSort descSnd ps).find? (fun p => render p.2 == k) with
         | some p => t.cell p.1 c
         | none => none⟩ := by
  unfold sort_ds_dates
  rw [h]

/-- C6: for a table whose keys all parse under the configured date format
(a parse/render pair where rendering a parsed ordinal re-parses to the
same ordinal), sort_ds_dates succeeds; the resulting key sequence is
non-increasing under the parse, the column names are non-decreasing, and
sorting a second time reproduces the same row and column order. -/
theorem c6_sort_spec (parse : String → Option Nat) (render : Nat → String) (t : Table)
    (hpr : ∀ s n, parse s = some n → parse (render n) = some n)
    (hp : (parseIndex parse t.index).isSome = true) :
    ∃ t2, sort_ds_dates parse render t = some t2 ∧
      t2.index.Sorted (fun a b => ∀ x y, parse a = some x → parse b = some y → y ≤ x) ∧
      t2.cols.Sorted (fun a b : String => a ≤ b) ∧
      ∃ t3, sort_ds_dates parse render t2 = some t3 ∧
        t3.index = t2.index ∧ t3.cols = t2.cols := by
  obtain ⟨pairs, hpairs⟩ := Option.isSome_iff_exists.mp hp
  have hsrt : (List.insertionSort descSnd pairs).Sorted descSnd :=
    List.sorted_insertionSort descSnd pairs
  have hmem : ∀ p ∈ List.insertionSort descSnd pairs, parse p.1 = some p.2 := fun p hp2 =>
    parseIndex_mem hpairs p ((List.perm_insertionSort descSnd pairs).mem_iff.mp hp2)
  refine ⟨_, sort_ds_dates_eq parse render t hpairs, ?_, ?_, ?_⟩
  · rw [List.Sorted, List.pairwise_map]
    refine hsrt.imp_of_mem ?_
    intro a b ha hb hr x y hx hy
    rw [hpr a.1 a.2 (hmem a ha)] at hx
    rw [hpr b.1 b.2 (hmem b hb)] at hy
    cases hx
    cases hy
    exact hr
  · exact List.sorted_insertionSort (fun a b : String => a ≤ b) t.cols
  · have hpairs2 := parseIndex_render hpr (List.insertionSort descSnd pairs) hmem
    have hsrt2 : ((List.insertionSort descSnd pairs).map
        (fun p => (render p.2, p.2))).Sorted descSnd := by
      rw [List.Sorted, List.pairwise_map]
      exact hsrt
    have hins2 := insertionSort_of_sorted descSnd hsrt2
    have hcols2 := insertionSort_of_sorted (fun a b : String => a ≤ b)
      (List.sorted_insertionSort (fun a b : String => a ≤ b) t.cols)
    refine ⟨_, sort_ds_dates_eq parse render _ hpairs2, ?_, ?_⟩
    · show (List.insertionSort descSnd ((List.insertionSort descSnd pairs).map
          (fun p => (render p.2, p.2)))).map (fun p => render p.2) = _
      rw [hins2, List.map_map]
      rfl
    · exact hcols2

/-- Round trip of the two-value witness format. -/
theorem fmt_roundtrip : ∀ s n, fmtParse s = some n → fmtParse (fmtRender n) = some n := by
  intro s n h
  unfold fmtParse at h
  split_ifs at h with h1 h2
  · cases h; decide
  · cases h; decide

theorem c6_witness :
    (parseIndex fmtParse sortWitT.index).isSome = true ∧
    (∃ t2, sort_ds_dates fmtParse fmtRender sortWitT = some t2 ∧
      t2.index.Sorted (fun a b => ∀ x y, fmtParse a = some x → fmtParse b = some y → y ≤ x) ∧
      t2.cols.Sorted (fun a b : String => a ≤ b) ∧
      ∃ t3, sort_ds_dates fmtParse fmtRender t2 = some t3 ∧
        t3.index = t2.index ∧ t3.cols = t2.cols) :=
  ⟨by decide, c6_sort_spec fmtParse fmtRender sortWitT fmt_roundtrip (by decide)⟩

theorem mem_mergeKeys {xs ys : List String} {v : String} :
    v ∈ mergeKeys xs ys ↔ v ∈ xs ∧ v ∈ ys := by
  simp [mergeKeys, List.mem_filter, List.elem_iff]

theorem foldl_mergeKeys (rest : List (List JRow)) :
    ∀ (acc : List String) (v : String),
      (v ∈ rest.foldl (fun acc d => mergeKeys acc (d.map Prod.fst)) acc ↔
        v ∈ acc ∧ ∀ d ∈ rest, v ∈ d.map Prod.fst) := by
  induction rest with
  | nil => intro acc v; simp
  | cons d rest ih =>
    intro acc v
    rw [List.foldl_cons, ih]
    simp only [mem_mergeKeys, List.forall_mem_cons]
    tauto

theorem filter_sublist_forall2 (p : JRow → Bool) :
    ∀ l : List (List JRow),
      List.Forall₂ (fun out d => List.Sublist out d) (l.map (fun d => d.filter p)) l := by
  intro l
  induction l with
  | nil => exact List.Forall₂.nil
  | cons d l ih => exact List.Forall₂.cons (List.filter_sublist d) ih

/-- C7: for at least two dataframes sharing the join column,
intersect_on_column returns one output per input; each output is its
input filtered (in original row order) to the rows whose join value occurs
in EVERY input, and consequently each output's set of join values is the
exact intersection of the inputs' join value sets. -/
theorem c7_intersect_spec (d0 d1 : List JRow) (rest : List (List JRow)) :
    ∃ outs, intersect_on_column (d0 :: d1 :: rest) = some outs ∧
      outs = (d0 :: d1 :: rest).map
        (fun d => d.filter
          (fun r => decide (∀ d2 ∈ d0 :: d1 :: rest, r.1 ∈ d2.map Prod.fst))) ∧
      List.Forall₂ (fun out d => List.Sublist out d) outs (d0 :: d1 :: rest) ∧
      ∀ out ∈ outs, ∀ v : String,
        (v ∈ out.map Prod.fst ↔ ∀ d2 ∈ d0 :: d1 :: rest, v ∈ d2.map Prod.fst) := by
  have hkeys : ∀ v : String,
      (v ∈ (rest.foldl (fun acc d => mergeKeys acc (d.map Prod.fst))
          (mergeKeys (d0.map Prod.fst) (d1.map Prod.fst))) ↔
        ∀ d2 ∈ d0 :: d1 :: rest, v ∈ d2.map Prod.fst) := by
    intro v
    rw [foldl_mergeKeys, mem_mergeKeys]
    simp only [List.forall_mem_cons]
    tauto
  have hpred : ∀ (d : List JRow) (r : JRow),
      ((rest.foldl (fun acc d => mergeKeys acc (d.map Prod.fst))
          (mergeKeys (d0.map Prod.fst) (d1.map Prod.fst))).contains r.1) =
        decide (∀ d2 ∈ d0 :: d1 :: rest, r.1 ∈ d2.map Prod.fst) := by
    intro d r
    rw [Bool.eq_iff_iff]
    simp only [List.elem_iff, decide_eq_true_eq]
    exact hkeys r.1
  have houts : intersect_on_column (d0 :: d1 :: rest) = some
      ((d0 :: d1 :: rest).map
        (fun d => d.filter
          (fun r => decide (∀ d2 ∈ d0 :: d1 :: rest, r.1 ∈ d2.map Prod.fst)))) := by
    show some _ = some _
    congr 1
    refine List.map_congr_left ?_
    intro d _
    exact List.filter_congr fun r _ => hpred d r
  refine ⟨_, houts, rfl, filter_sublist_forall2 _ _, ?_⟩
  intro out hout v
  obtain ⟨d, hd, rfl⟩ := List.mem_map.mp hout
  constructor
  · intro hv
    obtain ⟨r, hr, rfl⟩ := List.mem_map.mp hv
    exact decide_eq_true_eq.mp (List.mem_filter.mp hr).2
  · intro hv
    obtain ⟨r, hr, rfl⟩ := List.mem_map.mp (hv d hd)
    exact List.mem_map.mpr ⟨r, List.mem_filter.mpr ⟨hr, decide_eq_true_eq.mpr hv⟩, rfl⟩

/-- C3: when a cross check is configured and the last record of the
just-fetched non-empty page carries a designated field value occurring in
the reference series, the loop stops in the CROSS_CHECK_HIT state and the
batch keeps every record of the page, the matching one included - the page
is appended whole, never truncated at the match. -/
theorem c3_cross_check_hit (pages : Nat → List FRec) (c : CrossCheck) (p : Nat)
    (acc : List FRec) (fuel : Nat) (v : String)
    (hne : pages p ≠ [])
    (hlast : (acc ++ pages p).getLast?.bind (fun r => lookupField r c.key) = some v)
    (hmem : v ∈ c.series) :
    readLoop pages (some c) p acc (fuel + 1) = .stopped .CROSS_CHECK_HIT (acc ++ pages p) := by
  obtain ⟨r, hr, hv⟩ := Option.bind_eq_some.mp hlast
  have hemp : (pages p).isEmpty = false := by
    cases hp2 : pages p with
    | nil => exact absurd hp2 hne
    | cons a l => rfl
  have hcont : c.series.contains v = true := List.elem_iff.mpr hmem
  simp only [readLoop, hemp, Bool.false_eq_true, if_false, hr, hv, hcont, if_true]

theorem c3_witness :
    pagesWit3 0 ≠ [] ∧
    (([] ++ pagesWit3 0).getLast?.bind (fun r => lookupField r ccWit.key) =
      some "known title") ∧
    readLoop pagesWit3 (some ccWit) 0 [] 1 =
      .stopped .CROSS_CHECK_HIT ([] ++ pagesWit3 0) :=
  ⟨by decide, by decide,
   c3_cross_check_hit pagesWit3 ccWit 0 [] 0 "known title" (by decide) (by decide) (by decide)⟩

/-- C4: a run in which no page ever yields a record stops with an empty
batch and fails with the no-data condition, propagated before any merge or
persist step: the returned state - store table and persisted file alike -
is exactly the input state. -/
theorem c4_no_data (parse : String → Option Nat) (render : Nat → String)
    (pages : Nat → List FRec) (fuel : Nat) (s : FmpState)
    (hcc : (ccOf s.news).toOption.isSome = true)
    (hpages : ∀ p, pages p = [])
    (hfuel : 0 < fuel) :
    read_news_run parse render pages fuel s = some (.error .noData, s) := by
  obtain ⟨cc, hcc2⟩ : ∃ cc, ccOf s.news = .ok cc := by
    cases h : ccOf s.news with
    | ok a => exact ⟨a, rfl⟩
    | error e => rw [h] at hcc; simp [Except.toOption] at hcc
  have hloop : readLoop pages cc 0 [] fuel = .stopped .EMPTY_PAGE [] := by
    cases fuel with
    | zero => exact absurd hfuel (by simp)
    | succ n =>
      have hemp : (pages 0).isEmpty = true := by rw [hpages 0]; rfl
      simp only [readLoop, hemp, if_true]
  have hre : read_entries (newsUrlOf s.symbol) pages cc fuel = some (.error .noData) := by
    unfold read_entries
    rw [hloop]
    rfl
  unfold read_news_run
  rw [hcc2]
  show read_news_after_fetch parse render s
    (read_entries (newsUrlOf s.symbol) pages cc fuel) = some (.error .noData, s)
  rw [hre]
  rfl

theorem c4_witness :
    (ccOf stateWit.news).toOption.isSome = true ∧ 0 < 1 ∧
    read_news_run fmtParse fmtRender pagesEmpty 1 stateWit = some (.error .noData, stateWit) :=
  ⟨by decide, by decide,
   c4_no_data fmtParse fmtRender pagesEmpty 1 stateWit (by decide) (fun p => rfl) (by decide)⟩

theorem snake_date_mem {l : List String} (h : "date" ∈ l) :
    "date" ∈ l.map camelToSnake := by
  have hd : camelToSnake "date" = "date" := rfl
  exact hd ▸ List.mem_map_of_mem camelToSnake h

/-- C9: when the fetched batch is non-empty but, after the news-specific
rename and the snake_case conversion, the normalized columns lack the
canonical date key, the run fails with the missing-key condition carrying
the first raw record's values as diagnostic payload, and the state - store
and file - is returned untouched. -/
theorem c9_missing_key (parse : String → Option Nat) (render : Nat → String)
    (pages : Nat → List FRec) (fuel : Nat) (s : FmpState) (cc : Option CrossCheck)
    (st : StopState) (batch : List FRec)
    (hcc : ccOf s.news = .ok cc)
    (hrun : readLoop pages cc 0 [] fuel = .stopped st batch)
    (hne : batch ≠ [])
    (hnokey : "date" ∉ (normNews (newsUrlOf s.symbol) batch).cols.map camelToSnake) :
    read_news_run parse render pages fuel s =
      some (.error (.missingKey (firstRowValues (normNews (newsUrlOf s.symbol) batch))), s) := by
  have hnd : "date" ∉ (normNews (newsUrlOf s.symbol) batch).cols :=
    fun h => hnokey (snake_date_mem h)
  have hemp : batch.isEmpty = false := by
    cases hb : batch with
    | nil => exact absurd hb hne
    | cons a l => rfl
  have hre : read_entries (newsUrlOf s.symbol) pages cc fuel =
      some (.error (.missingKey (firstRowValues (normNews (newsUrlOf s.symbol) batch)))) := by
    unfold read_entries
    rw [hrun]
    simp only [read_entries_after_loop, hemp, Bool.false_eq_true, if_false]
    unfold normStage
    rw [if_neg hnd]
  unfold read_news_run
  rw [hcc]
  show read_news_after_fetch parse render s
    (read_entries (newsUrlOf s.symbol) pages cc fuel) = _
  rw [hre]
  rfl

set_option maxRecDepth 8000 in
theorem c9_witness :
    ccOf stateWit.news = .ok none ∧
    readLoop pagesWit9 none 0 [] 2 = .stopped .EMPTY_PAGE [[("headline", "x")]] ∧
    ([[("headline", "x")]] : List FRec) ≠ [] ∧
    "date" ∉ ((normNews (newsUrlOf stateWit.symbol) [[("headline", "x")]]).cols.map
      camelToSnake) ∧
    read_news_run fmtParse fmtRender pagesWit9 2 stateWit =
      some (.error (.missingKey (firstRowValues
        (normNews (newsUrlOf stateWit.symbol) [[("headline", "x")]]))), stateWit) :=
  ⟨rfl, by decide, by decide, by decide,
   c9_missing_key fmtParse fmtRender pagesWit9 2 stateWit none .EMPTY_PAGE
     [[("headline", "x")]] rfl (by decide) (by decide) (by decide)⟩

theorem loopStart_ge (reqTime : Nat → ℚ) (interval : ℚ) :
    ∀ m : Nat, (m : ℚ) * interval ≤ loopStart reqTime interval m := by
  intro m
  induction m with
  | zero => simp [loopStart]
  | succ p ih =>
    have h1 : interval - reqTime p ≤ max 0 (interval - reqTime p) := le_max_right _ _
    have h2 : loopStart reqTime interval (p + 1) =
        loopStart reqTime interval p + reqTime p + max 0 (interval - reqTime p) := rfl
    rw [h2]
    push_cast
    linarith

/-- C8: the fetcher sleeps interval minus the measured request duration
(clamped at zero) between consecutive pages, so across M consecutive page
requests each faster than the interval, the time from the first request's
start to the last request's start is at least (M - 1) times the interval. -/
theorem c8_rate_limiter (reqTime : Nat → ℚ) (interval : ℚ) (M : Nat)
    (hM : 1 ≤ M) (h : ∀ p, p < M → reqTime p < interval) :
    ((M - 1 : Nat) : ℚ) * interval ≤ loopStart reqTime interval (M - 1) :=
  loopStart_ge reqTime interval (M - 1)

theorem c8_witness :
    1 ≤ 3 ∧
    (((3 - 1 : Nat) : ℚ) * 1 ≤ loopStart (fun _ => 0) 1 (3 - 1)) :=
  ⟨by decide, c8_rate_limiter (fun _ => 0) 1 3 (by decide) (by decide)⟩

theorem strFind_take_eq_takeWhile : ∀ l : List Char,
    (match strFind l '.' with
     | some i => l.take i
     | none => l) = l.takeWhile (fun c => !(c == '.')) := by
  intro l
  induction l with
  | nil => rfl
  | cons a l ih =>
    by_cases ha : a = '.'
    · subst ha
      have h0 : strFind ('.' :: l) '.' = some 0 := by simp [strFind]
      rw [h0]
      simp [List.takeWhile_cons]
    · have h1 : strFind (a :: l) '.' = (strFind l '.').map (fun i => i + 1) := by
        simp [strFind, ha]
      rw [h1]
      cases h : strFind l '.' with
      | none =>
        rw [h] at ih
        show a :: l = (a :: l).takeWhile (fun c => !(c == '.'))
        simp [List.takeWhile_cons, ha]
        exact ih
      | some i =>
        rw [h] at ih
        show (a :: l).take (i + 1) = (a :: l).takeWhile (fun c => !(c == '.'))
        simp [List.takeWhile_cons, ha]
        exact ih

theorem truncate_eq_takeWhile (s : String) :
    truncateSymbolExt s = String.mk (s.data.takeWhile (fun c => !(c == '.'))) := by
  obtain ⟨l⟩ := s
  have h := strFind_take_eq_takeWhile l
  unfold truncateSymbolExt
  cases hf : strFind l '.' with
  | some i =>
    rw [hf] at h
    have h2 : l.take i = l.takeWhile (fun c => !(c == '.')) := h
    exact congrArg String.mk h2
  | none =>
    rw [hf] at h
    have h2 : l = l.takeWhile (fun c => !(c == '.')) := h
    exact congrArg String.mk h2

/-- C10: the constructor truncates the symbol at its FIRST dot (a symbol
without a dot is kept whole), and the stored symbol, both data-storage
file paths, and the fetch url template are all built from the truncated
prefix only. -/
theorem c10_symbol_truncation (symbol : String) :
    (fmpInit symbol).symbol = String.mk (symbol.data.takeWhile (fun c => !(c == '.'))) ∧
    (fmpInit symbol).news_file_path =
      NEWS_DATA_DIR ++ "/" ++ ((fmpInit symbol).symbol ++ ".csv") ∧
    (fmpInit symbol).social_file_path =
      SOCIAL_DATA_DIR ++ "/" ++ ((fmpInit symbol).symbol ++ ".csv") ∧
    newsUrlOf (fmpInit symbol).symbol =
      NEWS_BASE_URL ++ "?tickers=" ++ (fmpInit symbol).symbol ++ "&apikey=" ++ "@@@" ++
        "&page=" ++ "$$$" ∧
    ('.' ∉ symbol.data → (fmpInit symbol).symbol = symbol) := by
  refine ⟨truncate_eq_takeWhile symbol, rfl, rfl, rfl, ?_⟩
  intro hdot
  show truncateSymbolExt symbol = symbol
  rw [truncate_eq_takeWhile symbol]
  have hall : symbol.data.takeWhile (fun c => !(c == '.')) = symbol.data :=
    List.takeWhile_eq_self_iff.mpr fun c hc => by
      simp only [Bool.not_eq_true']
      exact beq_eq_false_iff_ne.mpr fun he => hdot (he ▸ hc)
  rw [hall]

theorem c10_witness :
    (fmpInit "BMW.DE").symbol = "BMW" ∧ '.' ∉ "AAPL".data ∧
    (fmpInit "AAPL").symbol = "AAPL" :=
  ⟨by decide, by decide, (c10_symbol_truncation "AAPL").2.2.2.2 (by decide)⟩

end NewsSentiment
